import Mathlib

/-
Shallow embedding of janitor.py (s3-janitor).

The source function purge(bucket, max_days, ...) computes a cutoff
timestamp, paginates the bucket listing, filters each page by
last_modified <= cutoff, and deletes eligible keys either per page
(delete_every_page, i.e. list_then_delete = False) or in chunks of 1000
after the listing loop (list_then_delete = True, the default).

Modelling decisions:
- Timestamps are Int (epoch milliseconds); the source compares
  timezone-aware datetimes with <=, a total order, so Int with <= is a
  faithful shallow embedding.
- A boto3 listing page is a dict; the source reads page[Contents] and a
  page lacking that entry (as S3 returns for an empty bucket) raises
  KeyError.  A page is therefore Option (List ObjectRecord), none being a
  page without Contents.
- A delete call is the key list handed to client.delete_objects; dry_run
  skips the network call, so in dry-run mode no call is recorded.
- purge raising KeyError is the PurgeResult.keyError outcome, recording
  the delete calls already issued and the running total at that moment.
- The cutoff is computed inside purge from date.today() sampled at the
  start of that purge invocation; computeCutoff models lines 40-44, and
  BucketJob.todayStart is the start-of-day value sampled when that
  bucket's worker begins.  runPurge models the fan-out in do(): one
  purge per bucket, each computing its own cutoff from its own sample.
-/

namespace Janitor

/-- An object-metadata record from one listing page: obj[Key] and
obj[LastModified] in the source loop. -/
structure ObjectRecord where
  key : String
  lastModified : Int
  deriving DecidableEq, Repr

/-- The retention filter of line 63: last_modified <= cutoff. -/
def eligible (o : ObjectRecord) (cutoff : Int) : Bool :=
  decide (o.lastModified ≤ cutoff)

/-- page_queue built by the inner loop of lines 59-66: the keys of the
eligible records of one page, in page order. -/
def pageQueue (page : List ObjectRecord) (cutoff : Int) : List String :=
  (page.filter (fun o => eligible o cutoff)).map (fun o => o.key)

/-- The mutable state threaded through the listing loop of purge:
to_be_deleted, total, and the delete calls issued so far. -/
structure LoopState where
  tbd : List String
  total : Nat
  calls : List (List String)
  deriving DecidableEq, Repr

/-- Loop state at line 48/53: to_be_deleted = [], total = 0, no calls. -/
def initState : LoopState := ⟨[], 0, []⟩

/-- One iteration of the page loop (lines 54-83): build page_queue, add
its size to total; if not list_then_delete and page_queue is non-empty,
issue a delete call for it (unless dry_run) and reset page_queue to [];
finally extend to_be_deleted by the (possibly reset) page_queue. -/
def pageStep (cutoff : Int) (ltd dry : Bool) (st : LoopState)
    (page : List ObjectRecord) : LoopState :=
  let pq := pageQueue page cutoff
  let newTotal := st.total + pq.length
  let issue := !ltd && !pq.isEmpty
  let newCalls := if issue && !dry then st.calls ++ [pq] else st.calls
  let pq2 := if issue then [] else pq
  { tbd := st.tbd ++ pq2, total := newTotal, calls := newCalls }

/-- The chunk comprehension of lines 90-93:
to_be_deleted[i:i+1000] for i in range(0, len(to_be_deleted), 1000),
generalised over the chunk size n. -/
def chunksOf (n : Nat) (l : List α) : List (List α) :=
  (List.range ((l.length + (n - 1)) / n)).map (fun i => (l.drop (i * n)).take n)

/-- Outcome of one purge invocation: normal termination, or the KeyError
raised at line 59 on a page without Contents.  Both record the delete
calls issued and the total counted up to that point. -/
inductive PurgeResult where
  | ok (calls : List (List String)) (total : Nat)
  | keyError (calls : List (List String)) (total : Nat)
  deriving DecidableEq, Repr

/-- The delete calls a purge invocation issued. -/
def PurgeResult.calls : PurgeResult → List (List String)
  | .ok cs _ => cs
  | .keyError cs _ => cs

/-- The total count a purge invocation accumulated (line 108 reports it
on normal termination). -/
def PurgeResult.total : PurgeResult → Nat
  | .ok _ t => t
  | .keyError _ t => t

/-- Whether the invocation terminated normally. -/
def PurgeResult.isOk : PurgeResult → Bool
  | .ok _ _ => true
  | .keyError _ _ => false

/-- The leftover phase of lines 86-106: if to_be_deleted is non-empty,
split it into chunks of 1000 and issue one delete call per chunk
(skipped under dry_run). -/
def finalStage (dry : Bool) (st : LoopState) : PurgeResult :=
  if st.tbd.isEmpty then .ok st.calls st.total
  else .ok (if dry then st.calls else st.calls ++ chunksOf 1000 st.tbd) st.total

/-- The listing loop of lines 54-83 followed by the leftover phase: a
page without Contents raises KeyError immediately, before any record of
that page is examined. -/
def purgeLoop (cutoff : Int) (ltd dry : Bool) :
    List (Option (List ObjectRecord)) → LoopState → PurgeResult
  | [], st => finalStage dry st
  | none :: _, st => .keyError st.calls st.total
  | some page :: rest, st => purgeLoop cutoff ltd dry rest (pageStep cutoff ltd dry st page)

/-- purge (lines 21-108) on a given paginated listing, with the cutoff
already computed: run the loop from the initial state. -/
def purge (pages : List (Option (List ObjectRecord))) (cutoff : Int)
    (ltd dry : Bool) : PurgeResult :=
  purgeLoop cutoff ltd dry pages initState

/-- purge on a listing in which every page has a Contents entry. -/
def purgeListing (pages : List (List ObjectRecord)) (cutoff : Int)
    (ltd dry : Bool) : PurgeResult :=
  purge (pages.map some) cutoff ltd dry

/-- All eligible keys of a listing, in discovery order. -/
def eligibleKeys (pages : List (List ObjectRecord)) (cutoff : Int) : List String :=
  (pages.map (fun p => pageQueue p cutoff)).flatten

/-- The number of eligible records, summed page by page. -/
def eligCount (pages : List (List ObjectRecord)) (cutoff : Int) : Nat :=
  (pages.map (fun p => (pageQueue p cutoff).length)).sum

/-- The per-page delete calls: one call per page whose eligible subset
is non-empty, in page order. -/
def perPageCalls (pages : List (List ObjectRecord)) (cutoff : Int) : List (List String) :=
  pages.filterMap (fun p =>
    if (pageQueue p cutoff).isEmpty then none else some (pageQueue p cutoff))

/-- Milliseconds per day, for the timedelta(days=max_days) arithmetic. -/
def msPerDay : Int := 86400000

/-- Lines 40-44: cutoff = start of the sampled today (midnight UTC)
minus max_days days. -/
def computeCutoff (todayStart maxDays : Int) : Int :=
  todayStart - maxDays * msPerDay

/-- One bucket's work unit in the fan-out of do() (lines 167-182):
todayStart is the start-of-day timestamp date.today() yields when this
bucket's purge invocation begins, pages its listing. -/
structure BucketJob where
  todayStart : Int
  pages : List (Option (List ObjectRecord))
  deriving DecidableEq, Repr

/-- The cutoff a bucket's purge invocation computes for itself at its
start (lines 40-44 executed inside purge, once per bucket). -/
def jobCutoff (maxDays : Int) (j : BucketJob) : Int :=
  computeCutoff j.todayStart maxDays

/-- The fan-out of do(): one purge per bucket, each job run exactly once
and independently of the others; every job yields a result and a failed
job never removes or alters another job's result (the coordinator
gathers all results and only logs failures). -/
def runPurge (maxDays : Int) (ltd dry : Bool) (jobs : List BucketJob) : List PurgeResult :=
  jobs.map (fun j => purge j.pages (jobCutoff maxDays j) ltd dry)

/-- Fixture: three pages with 2, 0 and 3 records eligible at cutoff 0. -/
def pages4 : List (List ObjectRecord) :=
  [[⟨"a", 0⟩, ⟨"b", 0⟩], [⟨"c", 1⟩], [⟨"d", 0⟩, ⟨"e", 0⟩, ⟨"f", 0⟩]]

/-- Fixture: one page with two records eligible at cutoff 0. -/
def pages7 : List (List ObjectRecord) := [[⟨"a", 0⟩, ⟨"b", 0⟩]]

/-- Fixture: a healthy one-page job. -/
def jobA : BucketJob := ⟨0, [some [⟨"a", -100000000000⟩]]⟩

/-- Fixture: a job whose first page lacks a Contents entry. -/
def jobBad : BucketJob := ⟨0, [none]⟩

/-! Helper lemmas about the loop body. -/

theorem pageStep_true_eq (cutoff : Int) (dry : Bool) (st : LoopState)
    (page : List ObjectRecord) :
    pageStep cutoff true dry st page =
      ⟨st.tbd ++ pageQueue page cutoff,
       st.total + (pageQueue page cutoff).length, st.calls⟩ := by
  simp [pageStep]

theorem pageStep_tbd (cutoff : Int) (ltd dry : Bool) (st : LoopState)
    (page : List ObjectRecord) :
    (pageStep cutoff ltd dry st page).tbd =
      st.tbd ++ (if (!ltd && !(pageQueue page cutoff).isEmpty) then []
                 else pageQueue page cutoff) := rfl

theorem pageStep_total (cutoff : Int) (ltd dry : Bool) (st : LoopState)
    (page : List ObjectRecord) :
    (pageStep cutoff ltd dry st page).total =
      st.total + (pageQueue page cutoff).length := rfl

theorem pageStep_dry_calls (cutoff : Int) (ltd : Bool) (st : LoopState)
    (page : List ObjectRecord) :
    (pageStep cutoff ltd true st page).calls = st.calls := by
  simp [pageStep]

theorem foldl_pageStep_true (cutoff : Int) (dry : Bool) :
    ∀ (ps : List (List ObjectRecord)) (st : LoopState),
      ps.foldl (pageStep cutoff true dry) st =
        ⟨st.tbd ++ eligibleKeys ps cutoff, st.total + eligCount ps cutoff, st.calls⟩ := by
  intro ps
  induction ps with
  | nil =>
    intro st
    simp [eligibleKeys, eligCount]
  | cons p ps ih =>
    intro st
    rw [List.foldl_cons, ih, pageStep_true_eq]
    simp [eligibleKeys, eligCount, Nat.add_assoc]

theorem foldl_pageStep_false (cutoff : Int) (dry : Bool) :
    ∀ (ps : List (List ObjectRecord)) (st : LoopState),
      ps.foldl (pageStep cutoff false dry) st =
        ⟨st.tbd, st.total + eligCount ps cutoff,
         st.calls ++ (if dry then [] else perPageCalls ps cutoff)⟩ := by
  intro ps
  induction ps with
  | nil =>
    intro st
    cases dry <;> simp [eligCount, perPageCalls]
  | cons p ps ih =>
    intro st
    rw [List.foldl_cons, ih]
    by_cases hq : (pageQueue p cutoff).isEmpty
    · have hq2 : pageQueue p cutoff = [] := List.isEmpty_iff.mp hq
      cases dry <;>
        simp [pageStep, hq2, eligCount, perPageCalls, List.filterMap_cons]
    · have hq2 : (pageQueue p cutoff).isEmpty = false := by
        cases h : (pageQueue p cutoff).isEmpty
        · rfl
        · exact absurd h hq
      have hq3 : pageQueue p cutoff ≠ [] := by
        simpa [List.isEmpty_iff] using hq
      cases dry <;>
        simp [pageStep, hq2, hq3, eligCount, perPageCalls, List.filterMap_cons,
          Nat.add_assoc]

theorem purgeLoop_append (cutoff : Int) (ltd dry : Bool) :
    ∀ (ps : List (List ObjectRecord)) (rest : List (Option (List ObjectRecord)))
      (st : LoopState),
      purgeLoop cutoff ltd dry (ps.map some ++ rest) st =
        purgeLoop cutoff ltd dry rest (ps.foldl (pageStep cutoff ltd dry) st) := by
  intro ps
  induction ps with
  | nil => intro rest st; rfl
  | cons p ps ih =>
    intro rest st
    rw [List.map_cons, List.cons_append, List.foldl_cons]
    exact ih rest (pageStep cutoff ltd dry st p)

theorem purgeListing_eq_final (pages : List (List ObjectRecord)) (cutoff : Int)
    (ltd dry : Bool) :
    purgeListing pages cutoff ltd dry =
      finalStage dry (pages.foldl (pageStep cutoff ltd dry) initState) := by
  have h := purgeLoop_append cutoff ltd dry pages [] initState
  rw [List.append_nil] at h
  exact h

theorem finalStage_total (dry : Bool) (st : LoopState) :
    (finalStage dry st).total = st.total := by
  unfold finalStage
  split <;> rfl

/-! Helper lemmas about chunksOf. -/

theorem chunksOf_nil (n : Nat) (hn : 0 < n) : chunksOf n ([] : List α) = [] := by
  unfold chunksOf
  rw [List.length_nil, Nat.zero_add, Nat.div_eq_of_lt (by omega)]
  rfl

theorem chunksOf_length (n : Nat) (l : List α) :
    (chunksOf n l).length = (l.length + (n - 1)) / n := by
  simp [chunksOf]

theorem chunksOf_cons_eq (n : Nat) (hn : 0 < n) (l : List α) (hl : l ≠ []) :
    chunksOf n l = l.take n :: chunksOf n (l.drop n) := by
  have hK : 1 ≤ l.length := List.length_pos.mpr hl
  unfold chunksOf
  have h1 : (l.length + (n - 1)) / n = (l.length - 1) / n + 1 := by
    have he : l.length + (n - 1) = (l.length - 1) + n := by omega
    rw [he, Nat.add_div_right _ hn]
  have h2 : ((l.drop n).length + (n - 1)) / n = (l.length - 1) / n := by
    rw [List.length_drop]
    rcases Nat.le_total l.length n with h | h
    · have he : l.length - n = 0 := by omega
      rw [he, Nat.zero_add]
      have ha : (n - 1) / n = 0 := Nat.div_eq_of_lt (by omega)
      have hb : (l.length - 1) / n = 0 := Nat.div_eq_of_lt (by omega)
      rw [ha, hb]
    · have he : l.length - n + (n - 1) = l.length - 1 := by omega
      rw [he]
  rw [h1, h2, List.range_succ_eq_map, List.map_cons, List.map_map]
  have h0 : (l.drop (0 * n)).take n = l.take n := by
    rw [Nat.zero_mul, List.drop_zero]
  rw [h0]
  congr 1
  apply List.map_congr_left
  intro i _
  show (l.drop (Nat.succ i * n)).take n = ((l.drop n).drop (i * n)).take n
  rw [List.drop_drop, Nat.succ_mul, Nat.add_comm (i * n) n]

theorem chunksOf_flatten_aux (n : Nat) (hn : 0 < n) :
    ∀ (K : Nat) (l : List α), l.length ≤ K → (chunksOf n l).flatten = l := by
  intro K
  induction K with
  | zero =>
    intro l hl
    have h : l = [] := List.eq_nil_of_length_eq_zero (by omega)
    rw [h, chunksOf_nil n hn]
    rfl
  | succ K ih =>
    intro l hl
    rcases eq_or_ne l [] with h | h
    · rw [h, chunksOf_nil n hn]; rfl
    · rw [chunksOf_cons_eq n hn l h, List.flatten_cons,
        ih (l.drop n) (by rw [List.length_drop]; have := List.length_pos.mpr h; omega),
        List.take_append_drop]

theorem chunksOf_flatten (n : Nat) (hn : 0 < n) (l : List α) :
    (chunksOf n l).flatten = l :=
  chunksOf_flatten_aux n hn l.length l Nat.le.refl

theorem mem_chunksOf (n : Nat) (hn : 0 < n) (l : List α) (c : List α)
    (hc : c ∈ chunksOf n l) : c ≠ [] ∧ c.length ≤ n := by
  unfold chunksOf at hc
  obtain ⟨i, hi, he⟩ := List.mem_map.mp hc
  have hi2 : i < (l.length + (n - 1)) / n := List.mem_range.mp hi
  have h1 : (i + 1) * n ≤ l.length + (n - 1) := (Nat.le_div_iff_mul_le hn).mp hi2
  have h2 : i * n + n ≤ l.length + (n - 1) := by
    rw [Nat.succ_mul] at h1; exact h1
  have h3 : i * n < l.length := by
    have h4 : i * n + 1 ≤ l.length := by omega
    omega
  constructor
  · rw [← he]
    have h5 : 0 < ((l.drop (i * n)).take n).length := by
      rw [List.length_take, List.length_drop]
      omega
    exact List.length_pos.mp h5
  · rw [← he, List.length_take]
    omega

/-! Helper lemmas about perPageCalls and eligibleKeys. -/

theorem perPageCalls_flatten (pages : List (List ObjectRecord)) (cutoff : Int) :
    (perPageCalls pages cutoff).flatten = eligibleKeys pages cutoff := by
  induction pages with
  | nil => rfl
  | cons p ps ih =>
    by_cases hq : pageQueue p cutoff = []
    · simp [perPageCalls, eligibleKeys, List.filterMap_cons, hq] at ih ⊢
      exact ih
    · simp [perPageCalls, eligibleKeys, List.filterMap_cons, hq] at ih ⊢
      rw [ih]

theorem mem_perPageCalls (pages : List (List ObjectRecord)) (cutoff : Int)
    (call : List String) (h : call ∈ perPageCalls pages cutoff) :
    ∃ p ∈ pages, call = pageQueue p cutoff ∧ call ≠ [] := by
  unfold perPageCalls at h
  obtain ⟨p, hp, he⟩ := List.mem_filterMap.mp h
  by_cases hq : (pageQueue p cutoff).isEmpty
  · rw [if_pos hq] at he
    exact absurd he (by simp)
  · rw [if_neg hq] at he
    have he2 : pageQueue p cutoff = call := Option.some.inj he
    refine ⟨p, hp, he2.symm, ?_⟩
    rw [← he2]
    simpa [List.isEmpty_iff] using hq

theorem eligibleKeys_length (pages : List (List ObjectRecord)) (cutoff : Int) :
    (eligibleKeys pages cutoff).length = eligCount pages cutoff := by
  unfold eligibleKeys eligCount
  rw [List.length_flatten, List.map_map]
  rfl

theorem pageQueue_length_le (page : List ObjectRecord) (cutoff : Int) :
    (pageQueue page cutoff).length ≤ page.length := by
  unfold pageQueue
  rw [List.length_map]
  exact List.length_filter_le _ _

/-! Characterisations of purgeListing. -/

theorem purgeListing_true_calls (pages : List (List ObjectRecord)) (cutoff : Int)
    (dry : Bool) :
    (purgeListing pages cutoff true dry).calls =
      if dry then [] else chunksOf 1000 (eligibleKeys pages cutoff) := by
  rw [purgeListing_eq_final, foldl_pageStep_true]
  unfold finalStage
  by_cases h : eligibleKeys pages cutoff = []
  · cases dry <;>
      simp [initState, h, PurgeResult.calls, chunksOf_nil 1000 (by omega)]
  · cases dry <;>
      simp [initState, List.isEmpty_iff, h, PurgeResult.calls]

theorem purgeListing_false_calls (pages : List (List ObjectRecord)) (cutoff : Int)
    (dry : Bool) :
    (purgeListing pages cutoff false dry).calls =
      if dry then [] else perPageCalls pages cutoff := by
  rw [purgeListing_eq_final, foldl_pageStep_false]
  unfold finalStage
  cases dry <;> simp [initState, PurgeResult.calls]

theorem purgeListing_total (pages : List (List ObjectRecord)) (cutoff : Int)
    (ltd dry : Bool) :
    (purgeListing pages cutoff ltd dry).total = eligCount pages cutoff := by
  rw [purgeListing_eq_final]
  cases ltd
  · rw [foldl_pageStep_false, finalStage_total]
    simp [initState]
  · rw [foldl_pageStep_true, finalStage_total]
    simp [initState]

/-! Error and dry-run behaviour of the loop. -/

theorem purgeLoop_isOk (cutoff : Int) (ltd dry : Bool) :
    ∀ (pages : List (Option (List ObjectRecord))) (st : LoopState),
      ((purgeLoop cutoff ltd dry pages st).isOk = true ↔ none ∉ pages) := by
  intro pages
  induction pages with
  | nil =>
    intro st
    show ((finalStage dry st).isOk = true ↔ _)
    unfold finalStage
    split <;> simp [PurgeResult.isOk]
  | cons p ps ih =>
    intro st
    cases p with
    | none => simp [purgeLoop, PurgeResult.isOk]
    | some page =>
      show ((purgeLoop cutoff ltd dry ps _).isOk = true ↔ _)
      rw [ih]
      simp

theorem purgeLoop_dry_calls (cutoff : Int) (ltd : Bool) :
    ∀ (pages : List (Option (List ObjectRecord))) (st : LoopState),
      (purgeLoop cutoff ltd true pages st).calls = st.calls := by
  intro pages
  induction pages with
  | nil =>
    intro st
    show (finalStage true st).calls = st.calls
    unfold finalStage
    split <;> rfl
  | cons p ps ih =>
    intro st
    cases p with
    | none => rfl
    | some page =>
      show (purgeLoop cutoff ltd true ps _).calls = st.calls
      rw [ih, pageStep_dry_calls]

theorem purgeLoop_total_dry_irrel (cutoff : Int) (ltd : Bool) (d1 d2 : Bool) :
    ∀ (pages : List (Option (List ObjectRecord))) (st1 st2 : LoopState),
      st1.tbd = st2.tbd → st1.total = st2.total →
      (purgeLoop cutoff ltd d1 pages st1).total =
        (purgeLoop cutoff ltd d2 pages st2).total := by
  intro pages
  induction pages with
  | nil =>
    intro st1 st2 _ htot
    rw [show purgeLoop cutoff ltd d1 [] st1 = finalStage d1 st1 from rfl,
      show purgeLoop cutoff ltd d2 [] st2 = finalStage d2 st2 from rfl,
      finalStage_total, finalStage_total, htot]
  | cons p ps ih =>
    intro st1 st2 htbd htot
    cases p with
    | none => exact htot
    | some page =>
      show (purgeLoop cutoff ltd d1 ps _).total = (purgeLoop cutoff ltd d2 ps _).total
      apply ih
      · rw [pageStep_tbd, pageStep_tbd, htbd]
      · rw [pageStep_total, pageStep_total, htot]

/-! Scenario helpers for the 2500-object listing. -/

theorem pageQueue_replicate :
    pageQueue (List.replicate 2500 (ObjectRecord.mk "k" 0)) 0 =
      List.replicate 2500 "k" := by
  unfold pageQueue
  rw [List.filter_replicate_of_pos (by decide), List.map_replicate]

theorem eligibleKeys_replicate :
    eligibleKeys [List.replicate 2500 (ObjectRecord.mk "k" 0)] 0 =
      List.replicate 2500 "k" := by
  unfold eligibleKeys
  simp only [List.map_cons, List.map_nil, List.flatten_cons, List.flatten_nil,
    List.append_nil]
  exact pageQueue_replicate

/-- Claim C1: the retention filter marks a record eligible for deletion
iff its lastModified is at or before the cutoff, boundary included: a
record exactly at the cutoff is eligible, and a record one millisecond
newer is not. -/
theorem claim1_retention_boundary (r : ObjectRecord) (c : Int) :
    (eligible r c = true ↔ r.lastModified ≤ c) ∧
    eligible (ObjectRecord.mk r.key c) c = true ∧
    eligible (ObjectRecord.mk r.key (c + 1)) c = false := by
  refine ⟨?_, ?_, ?_⟩
  · simp [eligible]
  · simp [eligible]
  · simp [eligible]

/-- Claim C2: every delete call purge issues (under either batching
policy) is non-empty, has at most 1000 keys (given the provider bound of
1000 records per listing page), and holds only keys of records at or
before the cutoff; and in a non-dry run a key is included in some delete
call iff it is an eligible key of the listing. -/
theorem claim2_delete_call_invariants (pages : List (List ObjectRecord))
    (cutoff : Int) (ltd dry : Bool)
    (hpage : ∀ p ∈ pages, p.length ≤ 1000) :
    (∀ call ∈ (purgeListing pages cutoff ltd dry).calls,
        call ≠ [] ∧ call.length ≤ 1000 ∧
          ∀ k ∈ call, k ∈ eligibleKeys pages cutoff) ∧
    (∀ k, k ∈ (purgeListing pages cutoff ltd false).calls.flatten ↔
        k ∈ eligibleKeys pages cutoff) := by
  constructor
  · intro call hcall
    cases ltd
    · rw [purgeListing_false_calls] at hcall
      cases dry
      · rw [if_neg (by simp)] at hcall
        obtain ⟨p, hp, hce, hne⟩ := mem_perPageCalls pages cutoff call hcall
        refine ⟨hne, ?_, ?_⟩
        · rw [hce]
          exact Nat.le_trans (pageQueue_length_le p cutoff) (hpage p hp)
        · intro k hk
          unfold eligibleKeys
          refine List.mem_flatten.mpr ⟨pageQueue p cutoff, ?_, hce ▸ hk⟩
          exact List.mem_map.mpr ⟨p, hp, rfl⟩
      · rw [if_pos rfl] at hcall
        exact absurd hcall (List.not_mem_nil call)
    · rw [purgeListing_true_calls] at hcall
      cases dry
      · rw [if_neg (by simp)] at hcall
        obtain ⟨hne, hle⟩ := mem_chunksOf 1000 (by omega) _ call hcall
        refine ⟨hne, hle, ?_⟩
        intro k hk
        have hj : k ∈ (chunksOf 1000 (eligibleKeys pages cutoff)).flatten :=
          List.mem_flatten.mpr ⟨call, hcall, hk⟩
        rwa [chunksOf_flatten 1000 (by omega)] at hj
      · rw [if_pos rfl] at hcall
        exact absurd hcall (List.not_mem_nil call)
  · intro k
    cases ltd
    · rw [purgeListing_false_calls, if_neg (by simp), perPageCalls_flatten]
    · rw [purgeListing_true_calls, if_neg (by simp),
        chunksOf_flatten 1000 (by omega)]

theorem claim2_witness :
    (∀ p ∈ [[ObjectRecord.mk "a" 0]], p.length ≤ 1000) ∧
    ((∀ call ∈ (purgeListing [[ObjectRecord.mk "a" 0]] 0 true false).calls,
        call ≠ [] ∧ call.length ≤ 1000 ∧
          ∀ k ∈ call, k ∈ eligibleKeys [[ObjectRecord.mk "a" 0]] 0) ∧
     (∀ k, k ∈ (purgeListing [[ObjectRecord.mk "a" 0]] 0 true false).calls.flatten ↔
        k ∈ eligibleKeys [[ObjectRecord.mk "a" 0]] 0)) :=
  ⟨by decide, claim2_delete_call_invariants [[ObjectRecord.mk "a" 0]] 0 true false (by decide)⟩

/-- Claim C3: under the GLOBAL_CHUNKED policy (list_then_delete, the
default) with dry_run off, the delete calls are exactly the 1000-chunks
of the eligible keys in discovery order: ceil(K/1000) calls, each at
most 1000 keys, together covering every eligible key exactly once; 2500
eligible objects yield 3 calls of sizes [1000, 1000, 500] and a total
of 2500. -/
theorem claim3_global_chunked (pages : List (List ObjectRecord)) (cutoff : Int) :
    (purgeListing pages cutoff true false).calls =
      chunksOf 1000 (eligibleKeys pages cutoff) ∧
    (purgeListing pages cutoff true false).calls.length =
      ((eligibleKeys pages cutoff).length + 999) / 1000 ∧
    (∀ call ∈ (purgeListing pages cutoff true false).calls,
        call ≠ [] ∧ call.length ≤ 1000) ∧
    (purgeListing pages cutoff true false).calls.flatten = eligibleKeys pages cutoff ∧
    (purgeListing pages cutoff true false).total = (eligibleKeys pages cutoff).length ∧
    (purgeListing [List.replicate 2500 (ObjectRecord.mk "k" 0)] 0 true false).calls.map
        List.length = [1000, 1000, 500] ∧
    (purgeListing [List.replicate 2500 (ObjectRecord.mk "k" 0)] 0 true false).total
      = 2500 := by
  have hcalls : (purgeListing pages cutoff true false).calls =
      chunksOf 1000 (eligibleKeys pages cutoff) := by
    rw [purgeListing_true_calls, if_neg (by simp)]
  refine ⟨hcalls, ?_, ?_, ?_, ?_, ?_, ?_⟩
  · rw [hcalls, chunksOf_length]
  · intro call hcall
    rw [hcalls] at hcall
    exact mem_chunksOf 1000 (by omega) _ call hcall
  · rw [hcalls, chunksOf_flatten 1000 (by omega)]
  · rw [purgeListing_total, eligibleKeys_length]
  · rw [purgeListing_true_calls, if_neg (by simp), eligibleKeys_replicate]
    show (chunksOf 1000 (List.replicate 2500 "k")).map List.length = [1000, 1000, 500]
    unfold chunksOf
    rw [List.length_replicate]
    norm_num
    have hc : ∀ i ∈ List.range 3,
        (List.length ∘ fun i => List.replicate (1000 ⊓ (2500 - i * 1000)) "k") i =
          1000 ⊓ (2500 - i * 1000) := by
      intro i _
      exact List.length_replicate _ _
    rw [List.map_congr_left hc]
    decide
  · rw [purgeListing_total]
    unfold eligCount
    simp only [List.map_cons, List.map_nil, List.sum_cons, List.sum_nil]
    rw [pageQueue_replicate, List.length_replicate]
    omega

theorem claim3_witness :
    ["a"] ∈ (purgeListing [[ObjectRecord.mk "a" 0]] 0 true false).calls ∧
    (["a"] : List String) ≠ [] ∧ (["a"] : List String).length ≤ 1000 :=
  ⟨by decide, (claim3_global_chunked [[ObjectRecord.mk "a" 0]] 0).2.2.1 ["a"] (by decide)⟩

/-- Claim C4: under the PER_PAGE policy (delete_every_page) with
dry_run off, the delete calls are exactly one call per page whose
eligible subset is non-empty, in page order, carrying that page's
eligible keys, and no call for a page with zero eligible objects; a
bucket with pages of [2, 0, 3] eligible objects gets exactly 2 calls
and a reported total of 5. -/
theorem claim4_per_page (pages : List (List ObjectRecord)) (cutoff : Int) :
    (purgeListing pages cutoff false false).calls = perPageCalls pages cutoff ∧
    (purgeListing pages cutoff false false).total = eligCount pages cutoff ∧
    (purgeListing pages4 0 false false).calls.length = 2 ∧
    (purgeListing pages4 0 false false).total = 5 := by
  refine ⟨?_, purgeListing_total pages cutoff false false, by decide, by decide⟩
  rw [purgeListing_false_calls, if_neg (by simp)]

/-- Claim C5: with dry_run on, purge issues zero delete calls under
either batching policy, even on a listing whose pages include one
without a Contents entry, and the total it counts equals the total of a
non-dry run over the identical listing data. -/
theorem claim5_dry_run (pages : List (Option (List ObjectRecord))) (cutoff : Int)
    (ltd : Bool) :
    (purge pages cutoff ltd true).calls = [] ∧
    (purge pages cutoff ltd true).total = (purge pages cutoff ltd false).total := by
  constructor
  · unfold purge
    rw [purgeLoop_dry_calls]
    rfl
  · unfold purge
    exact purgeLoop_total_dry_irrel cutoff ltd true false pages initState initState rfl rfl

/-- Claim C6: the total purge reports equals the sum over all pages of
that page's eligible-object count, and this total is the same under
both batching policies and regardless of dry_run. -/
theorem claim6_total_policy_invariant (pages : List (List ObjectRecord))
    (cutoff : Int) (ltd dry : Bool) :
    (purgeListing pages cutoff ltd dry).total = eligCount pages cutoff ∧
    (purgeListing pages cutoff true dry).total =
      (purgeListing pages cutoff false dry).total := by
  refine ⟨purgeListing_total pages cutoff ltd dry, ?_⟩
  rw [purgeListing_total, purgeListing_total]

/-- Counterexample to claim C7: on a one-page listing with two eligible
keys, PER_PAGE purge issues exactly one delete call in total — the key
a occurs in exactly one call, not in a per-page call and again in a
final chunked call as the claim asserts. -/
theorem claim7_counterexample :
    "a" ∈ eligibleKeys pages7 0 ∧
    (purgeListing pages7 0 false false).calls = [["a", "b"]] ∧
    (purgeListing pages7 0 false false).calls.countP
      (fun call => decide ("a" ∈ call)) = 1 := by
  decide

/-- Claim C7 as amended: under PER_PAGE the per-page branch resets
page_queue after its delete call, so to_be_deleted stays empty through
the loop, the final chunked stage issues no calls, and the
concatenation of all delete calls covers each eligible key occurrence
exactly once. -/
theorem claim7_amended (pages : List (List ObjectRecord)) (cutoff : Int) :
    (pages.foldl (pageStep cutoff false false) initState).tbd = [] ∧
    (purgeListing pages cutoff false false).calls.flatten =
      eligibleKeys pages cutoff := by
  constructor
  · rw [foldl_pageStep_false]
    rfl
  · rw [purgeListing_false_calls, if_neg (by simp), perPageCalls_flatten]

/-- Counterexample to claim C8: each purge invocation computes its own
cutoff from date.today() sampled at that invocation's start, so two
buckets of one run whose workers start on different UTC days use
different cutoffs and can classify the same object differently. -/
theorem claim8_counterexample :
    jobCutoff 90 (BucketJob.mk 0 [some [ObjectRecord.mk "a" (computeCutoff msPerDay 90)]]) ≠
      jobCutoff 90 (BucketJob.mk msPerDay [some [ObjectRecord.mk "a" (computeCutoff msPerDay 90)]]) ∧
    (runPurge 90 true true
      [BucketJob.mk 0 [some [ObjectRecord.mk "a" (computeCutoff msPerDay 90)]],
       BucketJob.mk msPerDay [some [ObjectRecord.mk "a" (computeCutoff msPerDay 90)]]]).map
        PurgeResult.total = [0, 1] := by
  decide

/-- Claim C8 as amended: the cutoff is computed once per bucket purge
invocation, at its start, and held fixed for that bucket's entire
traversal; when every bucket's invocation samples the same today (no
midnight crossing), all buckets of the run use the identical cutoff. -/
theorem claim8_amended (maxDays t : Int) (ltd dry : Bool) (jobs : List BucketJob)
    (h : ∀ j ∈ jobs, j.todayStart = t) :
    (∀ j ∈ jobs, jobCutoff maxDays j = computeCutoff t maxDays) ∧
    runPurge maxDays ltd dry jobs =
      jobs.map (fun j => purge j.pages (computeCutoff t maxDays) ltd dry) := by
  constructor
  · intro j hj
    unfold jobCutoff
    rw [h j hj]
  · unfold runPurge
    apply List.map_congr_left
    intro j hj
    unfold jobCutoff
    rw [h j hj]

theorem claim8_witness :
    (∀ j ∈ [BucketJob.mk 5 []], j.todayStart = 5) ∧
    ((∀ j ∈ [BucketJob.mk 5 []], jobCutoff 90 j = computeCutoff 5 90) ∧
     runPurge 90 true false [BucketJob.mk 5 []] =
       [BucketJob.mk 5 []].map (fun j => purge j.pages (computeCutoff 5 90) true false)) :=
  ⟨by decide, claim8_amended 90 5 true false [BucketJob.mk 5 []] (by decide)⟩

/-- Claim C9: each bucket job yields exactly one result, each bucket's
result is a function of that bucket's own job alone (replacing one job,
for example by one that fails, leaves every other bucket's result
unchanged — the coordinator gathers all results and never fails fast),
and a bucket's result is a failure exactly when its listing has a page
without a Contents entry, the failure being captured in that result. -/
theorem claim9_bucket_isolation (maxDays : Int) (ltd dry : Bool)
    (jobs : List BucketJob) :
    (runPurge maxDays ltd dry jobs).length = jobs.length ∧
    (∀ k : Nat, (runPurge maxDays ltd dry jobs)[k]? =
        (jobs[k]?).map (fun j => purge j.pages (jobCutoff maxDays j) ltd dry)) ∧
    (∀ (i : Nat) (jNew : BucketJob) (k : Nat), k ≠ i →
        (runPurge maxDays ltd dry (jobs.set i jNew))[k]? =
          (runPurge maxDays ltd dry jobs)[k]?) ∧
    (∀ j : BucketJob,
        ((purge j.pages (jobCutoff maxDays j) ltd dry).isOk = true ↔
          none ∉ j.pages)) := by
  refine ⟨List.length_map _ _, ?_, ?_, ?_⟩
  · intro k
    unfold runPurge
    rw [List.getElem?_map]
  · intro i jNew k hk
    unfold runPurge
    rw [List.map_set, List.getElem?_set_ne hk.symm]
  · intro j
    exact purgeLoop_isOk (jobCutoff maxDays j) ltd dry j.pages initState

theorem claim9_witness :
    (1 : Nat) ≠ 0 ∧
    (runPurge 1 true false ([jobA, jobA].set 0 jobBad))[1]? =
      (runPurge 1 true false [jobA, jobA])[1]? :=
  ⟨by decide, (claim9_bucket_isolation 1 true false [jobA, jobA]).2.2.1 0 jobBad 1 (by decide)⟩

/-- Claim C10: a listing page without a Contents entry (as the provider
returns for an empty bucket) makes purge raise KeyError on the spot:
under either batching policy and regardless of dry_run, the bucket's
job ends in the error outcome, whose recorded delete calls and total
come from the pages before the faulty one alone — no eligibility
decision or delete call happens for the faulty page or any later
page. -/
theorem claim10_missing_contents (cutoff : Int) (ltd dry : Bool)
    (front : List (List ObjectRecord)) (rest : List (Option (List ObjectRecord))) :
    purge (front.map some ++ none :: rest) cutoff ltd dry =
      PurgeResult.keyError
        ((front.foldl (pageStep cutoff ltd dry) initState).calls)
        ((front.foldl (pageStep cutoff ltd dry) initState).total) := by
  unfold purge
  rw [purgeLoop_append]
  rfl

end Janitor
